import Mathlib

/-!
# Ledger core of `utils.py` (banking demo), shallowly embedded

The repository stores accounts in a SQLite table `users (username TEXT PRIMARY
KEY, password BLOB, balance REAL)` and an append-only table
`transactions (id INTEGER PRIMARY KEY AUTOINCREMENT, username, type, amount,
timestamp, other_party)`.  We embed the two tables as Lean lists (in insertion
order, which for `transactions` is also `id` order — proved below), and each
operation of `utils.py` as a pure function on that state.

Conventions of the embedding:
* `REAL` amounts are idealised as exact rationals (`ℚ`).
* `datetime.now()` is an input: every mutating operation takes the timestamp
  string it would have formatted as an explicit argument.
* bcrypt hashing is irrelevant to every claim treated here; `signup` stores the
  password string as given.
* sqlite commits succeed; a rolled-back operation returns the state unchanged,
  which is exactly what `conn.rollback()` produces since every statement of an
  operation is issued after its last read.
* `AUTOINCREMENT` starts at 1; `nextId` is the id the next inserted row gets.
-/

/-- Monetary amount: exact idealisation of the SQLite `REAL` column. -/
abbrev Amount := ℚ

/-- A row of the `users` table (`utils.py` lines 26-30). -/
structure Account where
  username : String
  password : String
  balance  : Amount
deriving DecidableEq

/-- A row of the `transactions` table (`utils.py` lines 35-42). -/
structure TxRow where
  id : Nat
  username : String
  type : String
  amount : Amount
  timestamp : String
  other_party : String
deriving DecidableEq

/-- The database: both tables in insertion order, plus the next `AUTOINCREMENT`
id for `transactions`. -/
structure DB where
  users : List Account
  log : List TxRow
  nextId : Nat
deriving DecidableEq

/-- Fresh database right after `create_tables` (`utils.py` lines 15-47). -/
def initDB : DB := ⟨[], [], 1⟩

/-- The query `SELECT ... FROM users WHERE username = ?` (first matching row;
the primary key makes it unique in reachable states). -/
def findUser (db : DB) (u : String) : Option Account :=
  db.users.find? (fun a => a.username == u)

/-- The function `signup` (`utils.py` lines 50-73): rejects empty username or
password, and an `INSERT` whose primary key already exists raises
`IntegrityError`, returning `False`; otherwise inserts the account with
balance `0.0` and returns `True`. -/
def signup (db : DB) (u p : String) : Bool × DB :=
  if u = "" ∨ p = "" then (false, db)
  else if db.users.any (fun a => a.username == u) then (false, db)
  else (true, { db with users := db.users ++ [⟨u, p, 0⟩] })

/-- The function `get_balance` (`utils.py` lines 100-109): returns the balance
of the row if present, `0.0` if not (its docstring: "0.0 if not found"). -/
def get_balance (db : DB) (u : String) : Amount :=
  match findUser db u with
  | some a => a.balance
  | none => 0

/-- The function `deposit` (`utils.py` lines 112-132): rejects `amount <= 0`,
then runs `UPDATE users SET balance = balance + ? WHERE username = ?` (which
touches every row whose username matches — zero rows if the user does not
exist) and inserts a `"Deposit"` row, then commits and returns `True`.  There
is no existence check. -/
def deposit (db : DB) (u : String) (amt : Amount) (ts : String) : Bool × DB :=
  if amt ≤ 0 then (false, db)
  else
    (true,
      { db with
        users := db.users.map
          (fun a => if a.username == u then { a with balance := a.balance + amt } else a)
        log := db.log ++ [⟨db.nextId, u, "Deposit", amt, ts, ""⟩]
        nextId := db.nextId + 1 })

/-- The function `withdraw` (`utils.py` lines 135-159): rejects `amount <= 0`;
`SELECT balance ... ; if not row or row[0] < amount: return False`; otherwise
`UPDATE users SET balance = balance - ?` plus one `"Withdraw"` log row,
committed together. -/
def withdraw (db : DB) (u : String) (amt : Amount) (ts : String) : Bool × DB :=
  if amt ≤ 0 then (false, db)
  else
    match findUser db u with
    | none => (false, db)
    | some row =>
      if row.balance < amt then (false, db)
      else
        (true,
          { db with
            users := db.users.map
              (fun a => if a.username == u then { a with balance := a.balance - amt } else a)
            log := db.log ++ [⟨db.nextId, u, "Withdraw", amt, ts, ""⟩]
            nextId := db.nextId + 1 })

/-- The function `transfer` (`utils.py` lines 162-201): rejects
`amount <= 0 or not sender or not receiver or sender == receiver`; reads the
sender's and the receiver's rows; fails if either is missing or the sender's
balance is below `amount`; otherwise, inside one transaction, debits the
sender, credits the receiver, and inserts a `"transfer_out"` row for the
sender (other party = receiver) and a `"transfer_in"` row for the receiver
(other party = sender), both carrying the single timestamp computed at line
181. -/
def transfer (db : DB) (s r : String) (amt : Amount) (ts : String) : Bool × DB :=
  if amt ≤ 0 ∨ s = "" ∨ r = "" ∨ s = r then (false, db)
  else
    match findUser db s, findUser db r with
    | some srow, some _ =>
      if srow.balance < amt then (false, db)
      else
        (true,
          { db with
            users :=
              (db.users.map
                (fun a => if a.username == s then { a with balance := a.balance - amt } else a)).map
                (fun a => if a.username == r then { a with balance := a.balance + amt } else a)
            log := db.log ++
              [⟨db.nextId, s, "transfer_out", amt, ts, r⟩,
               ⟨db.nextId + 1, r, "transfer_in", amt, ts, s⟩]
            nextId := db.nextId + 2 })
    | _, _ => (false, db)

/-- The function `get_transactions` (`utils.py` lines 204-225):
`SELECT type, amount, timestamp, other_party FROM transactions WHERE
username = ? ORDER BY id ASC`.  The log list is kept in insertion order and
row ids increase with insertion (proved below), so the `ORDER BY id ASC`
result is the filtered list in list order. -/
def get_transactions (db : DB) (u : String) : List (String × Amount × String × String) :=
  (db.log.filter (fun t => t.username == u)).map
    (fun t => (t.type, t.amount, t.timestamp, t.other_party))

/-- One call against the ledger, with the timestamp the call would format. -/
inductive Op where
  | signup (u p : String)
  | deposit (u : String) (amt : Amount) (ts : String)
  | withdraw (u : String) (amt : Amount) (ts : String)
  | transfer (s r : String) (amt : Amount) (ts : String)

/-- The state after one call (discarding the returned Bool). -/
def applyOp (db : DB) : Op → DB
  | .signup u p => (signup db u p).2
  | .deposit u amt ts => (deposit db u amt ts).2
  | .withdraw u amt ts => (withdraw db u amt ts).2
  | .transfer s r amt ts => (transfer db s r amt ts).2

/-- The state after a sequence of calls. -/
def run (db : DB) : List Op → DB
  | [] => db
  | op :: rest => run (applyOp db op) rest

/-- Signed value of a log row for the audit sum: `Deposit` and `transfer_in`
count positive, `Withdraw` and `transfer_out` negative. -/
def signedAmount (t : TxRow) : Amount :=
  if t.type = "Deposit" ∨ t.type = "transfer_in" then t.amount else -t.amount

/-- Signed sum of all log rows whose primary username is `u`. -/
def signedSum (u : String) (log : List TxRow) : Amount :=
  ((log.filter (fun t => t.username == u)).map signedAmount).sum

/-- An operation is well-aimed when a deposit only targets an existing
account (the other operations check existence themselves). -/
def opOk (db : DB) : Op → Bool
  | .deposit u _ _ => (findUser db u).isSome
  | _ => true

/-- Every operation of the sequence is well-aimed in the state it runs in. -/
def goodSeq : DB → List Op → Bool
  | _, [] => true
  | db, op :: rest => opOk db op && goodSeq (applyOp db op) rest

/-- The check phase of `withdraw` (`utils.py` lines 137-144): the input
validation plus the `SELECT balance` and its comparison, which run with no
transaction open.  Returns whether the code proceeds to the debit. -/
def withdrawCheck (db : DB) (u : String) (amt : Amount) : Bool :=
  if amt ≤ 0 then false
  else
    match findUser db u with
    | none => false
    | some row => !(row.balance < amt)

/-- The commit phase of `withdraw` (`utils.py` lines 146-153): the `UPDATE`,
the `INSERT` and the `commit`, issued as one implicit transaction only after
the check phase has passed. -/
def withdrawApply (db : DB) (u : String) (amt : Amount) (ts : String) : DB :=
  { db with
    users := db.users.map
      (fun a => if a.username == u then { a with balance := a.balance - amt } else a)
    log := db.log ++ [⟨db.nextId, u, "Withdraw", amt, ts, ""⟩]
    nextId := db.nextId + 1 }

/-- Two concurrent `withdraw` calls on separate connections, interleaved so
that both check phases read the shared store before either commit phase
writes it — an interleaving SQLite permits, since each `SELECT` takes and
releases a read lock and only the `UPDATE`/`INSERT`/`commit` group takes the
write lock. -/
def racedWithdrawals (db : DB) (u : String) (a1 a2 : Amount) (t1 t2 : String) :
    Bool × Bool × DB :=
  let ok1 := withdrawCheck db u a1
  let ok2 := withdrawCheck db u a2
  let db1 := if ok1 then withdrawApply db u a1 t1 else db
  let db2 := if ok2 then withdrawApply db1 u a2 t2 else db1
  (ok1, ok2, db2)

/-- Usernames are pairwise distinct (the `users` primary key). -/
def UsersNodup (db : DB) : Prop := (db.users.map (fun a => a.username)).Nodup

/-- Every committed balance is non-negative. -/
def BalancesNonneg (db : DB) : Prop := ∀ a ∈ db.users, 0 ≤ a.balance

/-- Log rows appear in strictly increasing id order. -/
def LogSorted (db : DB) : Prop := List.Pairwise (fun t1 t2 => t1.id < t2.id) db.log

/-- Every log row's id is below the next `AUTOINCREMENT` id. -/
def IdsBelow (db : DB) : Prop := ∀ t ∈ db.log, t.id < db.nextId

/-- Structural invariant of reachable states. -/
def StateOk (db : DB) : Prop :=
  UsersNodup db ∧ BalancesNonneg db ∧ LogSorted db ∧ IdsBelow db

/-- Each account's balance equals the signed sum of its log rows. -/
def LogMatches (db : DB) : Prop :=
  ∀ a ∈ db.users, a.balance = signedSum a.username db.log

/-- Every log row's primary username belongs to an existing account. -/
def LogUsersExist (db : DB) : Prop :=
  ∀ t ∈ db.log, ∃ a ∈ db.users, a.username = t.username

/-- The auditability invariant of the ledger. -/
def AuditInv (db : DB) : Prop := LogMatches db ∧ LogUsersExist db

/-- Two-account state used to instantiate theorems: alice holds 100, bob 0. -/
def dbPair : DB := ⟨[⟨"alice", "pw", 100⟩, ⟨"bob", "pw", 0⟩], [], 1⟩

/-- One-account state used for the concurrency scenario: alice holds 100. -/
def dbRace : DB := ⟨[⟨"alice", "pw", 100⟩], [], 1⟩

/-- Concrete well-aimed sequence: alice signs up and deposits 100. -/
def opsSigDep : List Op := [.signup "alice" "pw", .deposit "alice" 100 "t1"]

/-- Concrete sequence exercising withdraw as well. -/
def opsSigDepWd : List Op :=
  [.signup "alice" "pw", .deposit "alice" 100 "t1", .withdraw "alice" 30 "t2"]

/-- Concrete sequence whose first call deposits into a username that does not
exist yet and whose second call signs that username up. -/
def opsOrphan : List Op := [.deposit "alice" 5 "t1", .signup "alice" "pw"]

/-- The `WHERE username = ?` lookup commutes with any row transformation that
keeps usernames fixed (as the balance `UPDATE`s do). -/
theorem find?_username_map (g : Account → Account) (hg : ∀ a, (g a).username = a.username)
    (l : List Account) (u : String) :
    (l.map g).find? (fun a => a.username == u) = (l.find? (fun a => a.username == u)).map g := by
  induction l with
  | nil => rfl
  | cons a t ih =>
    by_cases h : (a.username == u) = true
    · have hga : ((g a).username == u) = true := by rw [hg]; exact h
      rw [List.map_cons, List.find?_cons_of_pos (p := fun x : Account => x.username == u) _ hga,
        List.find?_cons_of_pos (p := fun x : Account => x.username == u) _ h]
      rfl
    · have hga : ¬((g a).username == u) = true := by rw [hg]; exact h
      rw [List.map_cons, List.find?_cons_of_neg (p := fun x : Account => x.username == u) _ hga,
        List.find?_cons_of_neg (p := fun x : Account => x.username == u) _ h, ih]

/-- Signed sums split over list concatenation. -/
theorem signedSum_append (u : String) (l1 l2 : List TxRow) :
    signedSum u (l1 ++ l2) = signedSum u l1 + signedSum u l2 := by
  simp [signedSum, List.filter_append]

/-- Signed sum of a single row. -/
theorem signedSum_single (u : String) (t : TxRow) :
    signedSum u [t] = if t.username = u then signedAmount t else 0 := by
  by_cases h : t.username = u
  · simp [signedSum, List.filter_cons, h]
  · simp [signedSum, List.filter_cons, h]

/-- Signed value of a `"Deposit"` row. -/
theorem signedAmount_deposit_row (i : Nat) (u : String) (amt : Amount) (ts op : String) :
    signedAmount ⟨i, u, "Deposit", amt, ts, op⟩ = amt := rfl

/-- Signed value of a `"Withdraw"` row. -/
theorem signedAmount_withdraw_row (i : Nat) (u : String) (amt : Amount) (ts op : String) :
    signedAmount ⟨i, u, "Withdraw", amt, ts, op⟩ = -amt := rfl

/-- Signed value of a `"transfer_out"` row. -/
theorem signedAmount_tout_row (i : Nat) (u : String) (amt : Amount) (ts op : String) :
    signedAmount ⟨i, u, "transfer_out", amt, ts, op⟩ = -amt := rfl

/-- Signed value of a `"transfer_in"` row. -/
theorem signedAmount_tin_row (i : Nat) (u : String) (amt : Amount) (ts op : String) :
    signedAmount ⟨i, u, "transfer_in", amt, ts, op⟩ = amt := rfl

/-- Complete case analysis of `signup`. -/
theorem signup_result (db : DB) (u p : String) :
    (signup db u p = (false, db) ∧ (u = "" ∨ p = "" ∨ ∃ a ∈ db.users, a.username = u)) ∨
    (u ≠ "" ∧ p ≠ "" ∧ (∀ a ∈ db.users, a.username ≠ u) ∧
      signup db u p = (true, ⟨db.users ++ [⟨u, p, 0⟩], db.log, db.nextId⟩)) := by
  by_cases h1 : u = "" ∨ p = ""
  · left
    exact ⟨by simp [signup, h1], by tauto⟩
  · by_cases h2 : db.users.any (fun a => a.username == u) = true
    · left
      refine ⟨by simp [signup, h1, h2], Or.inr (Or.inr ?_)⟩
      rcases List.any_eq_true.mp h2 with ⟨a, ha, hau⟩
      exact ⟨a, ha, by simpa using hau⟩
    · right
      push_neg at h1
      refine ⟨h1.1, h1.2, ?_, ?_⟩
      · intro a ha hau
        exact h2 (List.any_eq_true.mpr ⟨a, ha, by simp [hau]⟩)
      · have h1' : ¬(u = "" ∨ p = "") := by
          intro hc
          rcases hc with hc | hc
          · exact h1.1 hc
          · exact h1.2 hc
        simp [signup, h1', h2]

/-- Complete case analysis of `deposit`. -/
theorem deposit_result (db : DB) (u : String) (amt : Amount) (ts : String) :
    (amt ≤ 0 ∧ deposit db u amt ts = (false, db)) ∨
    (0 < amt ∧ deposit db u amt ts =
      (true,
        ⟨db.users.map (fun a => if a.username == u then { a with balance := a.balance + amt } else a),
         db.log ++ [⟨db.nextId, u, "Deposit", amt, ts, ""⟩],
         db.nextId + 1⟩)) := by
  by_cases h : amt ≤ 0
  · left
    exact ⟨h, by simp [deposit, h]⟩
  · right
    refine ⟨not_le.mp h, ?_⟩
    simp [deposit, h]

/-- Complete case analysis of `withdraw`. -/
theorem withdraw_result (db : DB) (u : String) (amt : Amount) (ts : String) :
    (withdraw db u amt ts = (false, db) ∧
      (amt ≤ 0 ∨ findUser db u = none ∨ ∃ row, findUser db u = some row ∧ row.balance < amt)) ∨
    (∃ row, findUser db u = some row ∧ 0 < amt ∧ amt ≤ row.balance ∧
      withdraw db u amt ts =
        (true,
          ⟨db.users.map (fun a => if a.username == u then { a with balance := a.balance - amt } else a),
           db.log ++ [⟨db.nextId, u, "Withdraw", amt, ts, ""⟩],
           db.nextId + 1⟩)) := by
  by_cases h : amt ≤ 0
  · left
    exact ⟨by simp [withdraw, h], Or.inl h⟩
  · cases hf : findUser db u with
    | none =>
      left
      exact ⟨by simp [withdraw, h, hf], Or.inr (Or.inl rfl)⟩
    | some row =>
      by_cases hb : row.balance < amt
      · left
        exact ⟨by simp [withdraw, h, hf, hb], Or.inr (Or.inr ⟨row, rfl, hb⟩)⟩
      · right
        refine ⟨row, rfl, not_le.mp h, not_lt.mp hb, ?_⟩
        simp [withdraw, h, hf, hb]

/-- Complete case analysis of `transfer`. -/
theorem transfer_result (db : DB) (s r : String) (amt : Amount) (ts : String) :
    transfer db s r amt ts = (false, db) ∨
    (0 < amt ∧ s ≠ "" ∧ r ≠ "" ∧ s ≠ r ∧
      (∃ srow, findUser db s = some srow ∧ amt ≤ srow.balance) ∧
      (findUser db r).isSome = true ∧
      transfer db s r amt ts =
        (true,
          ⟨(db.users.map
              (fun a => if a.username == s then { a with balance := a.balance - amt } else a)).map
              (fun a => if a.username == r then { a with balance := a.balance + amt } else a),
           db.log ++
             [⟨db.nextId, s, "transfer_out", amt, ts, r⟩,
              ⟨db.nextId + 1, r, "transfer_in", amt, ts, s⟩],
           db.nextId + 2⟩)) := by
  by_cases hg : amt ≤ 0 ∨ s = "" ∨ r = "" ∨ s = r
  · left
    simp [transfer, hg]
  · cases hs : findUser db s with
    | none =>
      left
      simp [transfer, hg, hs]
    | some srow =>
      cases hr : findUser db r with
      | none =>
        left
        simp [transfer, hg, hs, hr]
      | some rrow =>
        by_cases hb : srow.balance < amt
        · left
          simp [transfer, hg, hs, hr, hb]
        · right
          have htr : transfer db s r amt ts =
              (true,
                ⟨(db.users.map
                    (fun a => if a.username == s then { a with balance := a.balance - amt } else a)).map
                    (fun a => if a.username == r then { a with balance := a.balance + amt } else a),
                 db.log ++
                   [⟨db.nextId, s, "transfer_out", amt, ts, r⟩,
                    ⟨db.nextId + 1, r, "transfer_in", amt, ts, s⟩],
                 db.nextId + 2⟩) := by
            simp [transfer, hg, hs, hr, hb]
          push_neg at hg
          exact ⟨hg.1, hg.2.1, hg.2.2.1, hg.2.2.2, ⟨srow, rfl, not_lt.mp hb⟩, by simp, htr⟩

/-- A balance `UPDATE` keyed on `username` never changes usernames (credit). -/
theorem username_upd_add (u : String) (amt : Amount) (a : Account) :
    ((if a.username == u then { a with balance := a.balance + amt } else a) : Account).username
      = a.username := by
  by_cases hx : (a.username == u) = true <;> simp [hx]

/-- A balance `UPDATE` keyed on `username` never changes usernames (debit). -/
theorem username_upd_sub (u : String) (amt : Amount) (a : Account) :
    ((if a.username == u then { a with balance := a.balance - amt } else a) : Account).username
      = a.username := by
  by_cases hx : (a.username == u) = true <;> simp [hx]

/-- Mapping a username-preserving transformation keeps the username list. -/
theorem map_username_map (g : Account → Account) (hg : ∀ a, (g a).username = a.username)
    (l : List Account) :
    (l.map g).map (fun a => a.username) = l.map (fun a => a.username) := by
  induction l with
  | nil => rfl
  | cons a t ih => simp [hg, ih]

/-- In a state with distinct usernames, any member sharing the looked-up
username is the found row. -/
theorem mem_eq_of_findUser (db : DB) (hn : UsersNodup db) {u : String} {row a : Account}
    (hf : findUser db u = some row) (ha : a ∈ db.users) (hu : a.username = u) : a = row := by
  have hmem := List.mem_of_find?_eq_some hf
  have hru : row.username = u := by
    have hp := List.find?_some hf
    simpa using hp
  exact List.inj_on_of_nodup_map hn ha hmem (by rw [hu, hru])

/-- Appending one row with the next id keeps the log sorted. -/
theorem pairwise_append_one (l : List TxRow) (t : TxRow) (n : Nat)
    (hs : List.Pairwise (fun t1 t2 => t1.id < t2.id) l) (hi : ∀ x ∈ l, x.id < n)
    (ht : n ≤ t.id) :
    List.Pairwise (fun t1 t2 => t1.id < t2.id) (l ++ [t]) := by
  rw [List.pairwise_append]
  refine ⟨hs, List.pairwise_singleton _ _, ?_⟩
  intro a ha b hb
  simp only [List.mem_singleton] at hb
  subst hb
  exact lt_of_lt_of_le (hi a ha) ht

/-- Appending the two transfer rows with consecutive fresh ids keeps the log
sorted. -/
theorem pairwise_append_two (l : List TxRow) (t1 t2 : TxRow) (n : Nat)
    (hs : List.Pairwise (fun a b => a.id < b.id) l) (hi : ∀ x ∈ l, x.id < n)
    (h1 : t1.id = n) (h2 : t2.id = n + 1) :
    List.Pairwise (fun a b => a.id < b.id) (l ++ [t1, t2]) := by
  rw [List.pairwise_append]
  refine ⟨hs, ?_, ?_⟩
  · simp [h1, h2]
  · intro a ha b hb
    simp only [List.mem_cons, List.not_mem_nil, or_false] at hb
    have hid : n ≤ b.id := by
      rcases hb with hb | hb
      · rw [hb, h1]
      · rw [hb, h2]
        exact Nat.le_succ_of_le (Nat.le_refl n)
    exact lt_of_lt_of_le (hi a ha) hid

/-- Every single call preserves the structural invariant. -/
theorem stateOk_applyOp (db : DB) (op : Op) (h : StateOk db) : StateOk (applyOp db op) := by
  obtain ⟨hn, hb, hs, hi⟩ := h
  cases op with
  | signup u p =>
    rcases signup_result db u p with ⟨heq, _⟩ | ⟨_, _, hfresh, heq⟩
    · simp only [applyOp, heq]
      exact ⟨hn, hb, hs, hi⟩
    · simp only [applyOp, heq]
      refine ⟨?_, ?_, hs, hi⟩
      · unfold UsersNodup at hn ⊢
        simp only [List.map_append, List.map_cons, List.map_nil]
        rw [List.nodup_append]
        refine ⟨hn, List.nodup_singleton _, ?_⟩
        intro x hx hxu
        simp only [List.mem_singleton] at hxu
        subst hxu
        rcases List.mem_map.mp hx with ⟨a, ha, hau⟩
        exact hfresh a ha hau
      · intro a ha
        rcases List.mem_append.mp ha with ha | ha
        · exact hb a ha
        · simp only [List.mem_singleton] at ha
          subst ha
          exact le_refl 0
  | deposit u amt ts =>
    rcases deposit_result db u amt ts with ⟨_, heq⟩ | ⟨hamt, heq⟩
    · simp only [applyOp, heq]
      exact ⟨hn, hb, hs, hi⟩
    · simp only [applyOp, heq]
      refine ⟨?_, ?_, ?_, ?_⟩
      · unfold UsersNodup at hn ⊢
        rw [map_username_map
          (fun a => if a.username == u then { a with balance := a.balance + amt } else a)
          (fun a => username_upd_add u amt a)]
        exact hn
      · intro a' ha'
        rcases List.mem_map.mp ha' with ⟨a, ha, rfl⟩
        by_cases hx : (a.username == u) = true
        · simp only [hx, if_true]
          exact add_nonneg (hb a ha) (le_of_lt hamt)
        · simp only [hx, if_false]
          exact hb a ha
      · exact pairwise_append_one db.log _ db.nextId hs hi (le_refl _)
      · intro t ht
        rcases List.mem_append.mp ht with ht | ht
        · exact Nat.lt_succ_of_lt (hi t ht)
        · simp only [List.mem_singleton] at ht
          subst ht
          exact Nat.lt_succ_self _
  | withdraw u amt ts =>
    rcases withdraw_result db u amt ts with ⟨heq, _⟩ | ⟨row, hf, hamt, hbal, heq⟩
    · simp only [applyOp, heq]
      exact ⟨hn, hb, hs, hi⟩
    · simp only [applyOp, heq]
      refine ⟨?_, ?_, ?_, ?_⟩
      · unfold UsersNodup at hn ⊢
        rw [map_username_map
          (fun a => if a.username == u then { a with balance := a.balance - amt } else a)
          (fun a => username_upd_sub u amt a)]
        exact hn
      · intro a' ha'
        rcases List.mem_map.mp ha' with ⟨a, ha, rfl⟩
        by_cases hx : (a.username == u) = true
        · simp only [hx, if_true]
          have hau : a.username = u := by simpa using hx
          have : a = row := mem_eq_of_findUser db hn hf ha hau
          subst this
          simpa [sub_nonneg] using hbal
        · simp only [hx, if_false]
          exact hb a ha
      · exact pairwise_append_one db.log _ db.nextId hs hi (le_refl _)
      · intro t ht
        rcases List.mem_append.mp ht with ht | ht
        · exact Nat.lt_succ_of_lt (hi t ht)
        · simp only [List.mem_singleton] at ht
          subst ht
          exact Nat.lt_succ_self _
  | transfer s r amt ts =>
    rcases transfer_result db s r amt ts with heq | ⟨hamt, _, _, hsr, ⟨srow, hf, hbal⟩, _, heq⟩
    · simp only [applyOp, heq]
      exact ⟨hn, hb, hs, hi⟩
    · simp only [applyOp, heq]
      refine ⟨?_, ?_, ?_, ?_⟩
      · unfold UsersNodup at hn ⊢
        rw [map_username_map
            (fun a => if a.username == r then { a with balance := a.balance + amt } else a)
            (fun a => username_upd_add r amt a),
          map_username_map
            (fun a => if a.username == s then { a with balance := a.balance - amt } else a)
            (fun a => username_upd_sub s amt a)]
        exact hn
      · intro a'' ha''
        rcases List.mem_map.mp ha'' with ⟨a', ha', rfl⟩
        rcases List.mem_map.mp ha' with ⟨a, ha, rfl⟩
        by_cases hxs : (a.username == s) = true
        · have has : a.username = s := by simpa using hxs
          have haeq : a = srow := mem_eq_of_findUser db hn hf ha has
          have hxr : (((if a.username == s then { a with balance := a.balance - amt } else a) :
              Account).username == r) = false := by
            rw [username_upd_sub s amt a, has]
            simp [hsr]
          simp only [hxs, if_true] at hxr ⊢
          simp only [hxr, Bool.false_eq_true, if_false]
          subst haeq
          simpa [sub_nonneg] using hbal
        · simp only [hxs, Bool.false_eq_true, if_false]
          by_cases hxr : (a.username == r) = true
          · simp only [hxr, if_true]
            exact add_nonneg (hb a ha) (le_of_lt hamt)
          · simp only [hxr, Bool.false_eq_true, if_false]
            exact hb a ha
      · exact pairwise_append_two db.log _ _ db.nextId hs hi rfl rfl
      · intro t ht
        rcases List.mem_append.mp ht with ht | ht
        · exact Nat.lt_of_lt_of_le (hi t ht) (Nat.le_add_right db.nextId 2)
        · simp only [List.mem_cons, List.not_mem_nil, or_false] at ht
          rcases ht with ht | ht
          · rw [ht]
            exact Nat.lt_of_lt_of_le (Nat.lt_succ_self _) (Nat.le_succ _)
          · rw [ht]
            exact Nat.lt_succ_self _

/-- A whole run preserves the structural invariant. -/
theorem stateOk_run (ops : List Op) (db : DB) (h : StateOk db) : StateOk (run db ops) := by
  induction ops generalizing db with
  | nil => exact h
  | cons op rest ih => exact ih (applyOp db op) (stateOk_applyOp db op h)

/-- The fresh database satisfies the structural invariant. -/
theorem stateOk_init : StateOk initDB := by
  refine ⟨?_, ?_, ?_, ?_⟩ <;> simp [UsersNodup, BalancesNonneg, LogSorted, IdsBelow, initDB]

/-- Signed sum of a two-row append (the transfer case). -/
theorem signedSum_pair (u : String) (t1 t2 : TxRow) :
    signedSum u [t1, t2] =
      (if t1.username = u then signedAmount t1 else 0) +
      (if t2.username = u then signedAmount t2 else 0) := by
  rw [show ([t1, t2] : List TxRow) = [t1] ++ [t2] from rfl, signedSum_append,
    signedSum_single, signedSum_single]

/-- A username-preserving row transformation keeps account-existence
witnesses. -/
theorem exists_user_map (l : List Account) (g : Account → Account)
    (hg : ∀ a, (g a).username = a.username) (x : String)
    (h : ∃ a ∈ l, a.username = x) : ∃ a ∈ l.map g, a.username = x := by
  rcases h with ⟨a, ha, hax⟩
  exact ⟨g a, List.mem_map_of_mem g ha, by rw [hg a, hax]⟩

/-- Every single well-aimed call preserves the audit invariant. -/
theorem auditInv_applyOp (db : DB) (op : Op) (h : AuditInv db) (hok : opOk db op = true) :
    AuditInv (applyOp db op) := by
  obtain ⟨hm, he⟩ := h
  cases op with
  | signup u p =>
    rcases signup_result db u p with ⟨heq, _⟩ | ⟨_, _, hfresh, heq⟩
    · simp only [applyOp, heq]
      exact ⟨hm, he⟩
    · simp only [applyOp, heq]
      constructor
      · intro a ha
        rcases List.mem_append.mp ha with ha | ha
        · exact hm a ha
        · simp only [List.mem_singleton] at ha
          subst ha
          show (0 : Amount) = signedSum u db.log
          have hnil : db.log.filter (fun t => t.username == u) = [] := by
            apply List.filter_eq_nil_iff.mpr
            intro t htl
            rcases he t htl with ⟨b, hbmem, hbu⟩
            simp only [beq_iff_eq]
            intro hc
            exact hfresh b hbmem (hbu.trans hc)
          rw [signedSum, hnil]
          rfl
      · intro t htl
        rcases he t htl with ⟨b, hbmem, hbu⟩
        exact ⟨b, List.mem_append_left _ hbmem, hbu⟩
  | deposit u amt ts =>
    rcases deposit_result db u amt ts with ⟨_, heq⟩ | ⟨hamt, heq⟩
    · simp only [applyOp, heq]
      exact ⟨hm, he⟩
    · have hrow := Option.isSome_iff_exists.mp hok
      rcases hrow with ⟨row, hfrow⟩
      have hrowmem : row ∈ db.users := List.mem_of_find?_eq_some hfrow
      have hrowu : row.username = u := by
        have hp := List.find?_some hfrow
        simpa using hp
      simp only [applyOp, heq]
      constructor
      · intro a' ha'
        rcases List.mem_map.mp ha' with ⟨a, ha, rfl⟩
        by_cases hx : (a.username == u) = true
        · have hau : a.username = u := by simpa using hx
          simp only [hx, if_true]
          show a.balance + amt =
            signedSum a.username (db.log ++ [⟨db.nextId, u, "Deposit", amt, ts, ""⟩])
          rw [signedSum_append, signedSum_single, hau]
          have hbaleq := hm a ha
          rw [hau] at hbaleq
          rw [hbaleq]
          simp [signedAmount]
        · simp only [hx, Bool.false_eq_true, if_false]
          have hau : a.username ≠ u := by simpa using hx
          show a.balance = signedSum a.username (db.log ++ [⟨db.nextId, u, "Deposit", amt, ts, ""⟩])
          rw [signedSum_append, signedSum_single]
          have hne : ¬((⟨db.nextId, u, "Deposit", amt, ts, ""⟩ : TxRow).username = a.username) := by
            intro hc
            exact hau (hc ▸ rfl)
          rw [if_neg hne, add_zero]
          exact hm a ha
      · intro t htl
        rcases List.mem_append.mp htl with htl | htl
        · exact exists_user_map db.users _ (fun a => username_upd_add u amt a) _ (he t htl)
        · simp only [List.mem_singleton] at htl
          subst htl
          refine ⟨_, List.mem_map_of_mem _ hrowmem, ?_⟩
          show ((if (row.username == u) = true then
            { row with balance := row.balance + amt } else row) : Account).username = u
          rw [username_upd_add u amt row, hrowu]
  | withdraw u amt ts =>
    rcases withdraw_result db u amt ts with ⟨heq, _⟩ | ⟨row, hfrow, hamt, hbal, heq⟩
    · simp only [applyOp, heq]
      exact ⟨hm, he⟩
    · have hrowmem : row ∈ db.users := List.mem_of_find?_eq_some hfrow
      have hrowu : row.username = u := by
        have hp := List.find?_some hfrow
        simpa using hp
      simp only [applyOp, heq]
      constructor
      · intro a' ha'
        rcases List.mem_map.mp ha' with ⟨a, ha, rfl⟩
        by_cases hx : (a.username == u) = true
        · have hau : a.username = u := by simpa using hx
          simp only [hx, if_true]
          show a.balance - amt =
            signedSum a.username (db.log ++ [⟨db.nextId, u, "Withdraw", amt, ts, ""⟩])
          rw [signedSum_append, signedSum_single, hau]
          have hbaleq := hm a ha
          rw [hau] at hbaleq
          rw [hbaleq]
          have hsa : signedAmount ⟨db.nextId, u, "Withdraw", amt, ts, ""⟩ = -amt :=
            signedAmount_withdraw_row _ _ _ _ _
          simp [hsa]
          ring
        · simp only [hx, Bool.false_eq_true, if_false]
          have hau : a.username ≠ u := by simpa using hx
          show a.balance = signedSum a.username (db.log ++ [⟨db.nextId, u, "Withdraw", amt, ts, ""⟩])
          rw [signedSum_append, signedSum_single]
          have hne : ¬((⟨db.nextId, u, "Withdraw", amt, ts, ""⟩ : TxRow).username = a.username) := by
            intro hc
            exact hau (hc ▸ rfl)
          rw [if_neg hne, add_zero]
          exact hm a ha
      · intro t htl
        rcases List.mem_append.mp htl with htl | htl
        · exact exists_user_map db.users _ (fun a => username_upd_sub u amt a) _ (he t htl)
        · simp only [List.mem_singleton] at htl
          subst htl
          refine ⟨_, List.mem_map_of_mem _ hrowmem, ?_⟩
          show ((if (row.username == u) = true then
            { row with balance := row.balance - amt } else row) : Account).username = u
          rw [username_upd_sub u amt row, hrowu]
  | transfer s r amt ts =>
    rcases transfer_result db s r amt ts with heq | ⟨hamt, _, _, hsr, ⟨srow, hfs, hsbal⟩, hrsome, heq⟩
    · simp only [applyOp, heq]
      exact ⟨hm, he⟩
    · rcases Option.isSome_iff_exists.mp hrsome with ⟨rrow, hfr⟩
      have hsmem : srow ∈ db.users := List.mem_of_find?_eq_some hfs
      have hsu : srow.username = s := by
        have hp := List.find?_some hfs
        simpa using hp
      have hrmem : rrow ∈ db.users := List.mem_of_find?_eq_some hfr
      have hru : rrow.username = r := by
        have hp := List.find?_some hfr
        simpa using hp
      simp only [applyOp, heq]
      constructor
      · intro a'' ha''
        rcases List.mem_map.mp ha'' with ⟨a', ha', rfl⟩
        rcases List.mem_map.mp ha' with ⟨a, ha, rfl⟩
        have hbase := hm a ha
        by_cases hxs : (a.username == s) = true
        · have has : a.username = s := by simpa using hxs
          have hxr : (((if a.username == s then { a with balance := a.balance - amt } else a) :
              Account).username == r) = false := by
            rw [username_upd_sub s amt a, has]
            simp [hsr]
          simp only [hxs, if_true] at hxr ⊢
          simp only [hxr, Bool.false_eq_true, if_false]
          show a.balance - amt = signedSum a.username
            (db.log ++ [⟨db.nextId, s, "transfer_out", amt, ts, r⟩,
              ⟨db.nextId + 1, r, "transfer_in", amt, ts, s⟩])
          rw [signedSum_append, signedSum_pair, has]
          rw [has] at hbase
          rw [hbase]
          have h1 : ((⟨db.nextId, s, "transfer_out", amt, ts, r⟩ : TxRow).username = s) := rfl
          have h2 : ¬((⟨db.nextId + 1, r, "transfer_in", amt, ts, s⟩ : TxRow).username = s) := by
            intro hc
            have hrs : r = s := hc
            exact hsr hrs.symm
          rw [if_pos h1, if_neg h2, add_zero, signedAmount_tout_row]
          ring
        · have has : a.username ≠ s := by simpa using hxs
          simp only [hxs, Bool.false_eq_true, if_false]
          by_cases hxr : (a.username == r) = true
          · have har : a.username = r := by simpa using hxr
            simp only [hxr, if_true]
            show a.balance + amt = signedSum a.username
              (db.log ++ [⟨db.nextId, s, "transfer_out", amt, ts, r⟩,
                ⟨db.nextId + 1, r, "transfer_in", amt, ts, s⟩])
            rw [signedSum_append, signedSum_pair, har]
            rw [har] at hbase
            rw [hbase]
            have h1 : ¬((⟨db.nextId, s, "transfer_out", amt, ts, r⟩ : TxRow).username = r) := by
              intro hc
              have hsr2 : s = r := hc
              exact hsr hsr2
            have h2 : ((⟨db.nextId + 1, r, "transfer_in", amt, ts, s⟩ : TxRow).username = r) := rfl
            rw [if_neg h1, if_pos h2, zero_add, signedAmount_tin_row]
          · have har : a.username ≠ r := by simpa using hxr
            simp only [hxr, Bool.false_eq_true, if_false]
            show a.balance = signedSum a.username
              (db.log ++ [⟨db.nextId, s, "transfer_out", amt, ts, r⟩,
                ⟨db.nextId + 1, r, "transfer_in", amt, ts, s⟩])
            rw [signedSum_append, signedSum_pair]
            have h1 : ¬((⟨db.nextId, s, "transfer_out", amt, ts, r⟩ : TxRow).username = a.username) := by
              intro hc
              have hsa : s = a.username := hc
              exact has hsa.symm
            have h2 : ¬((⟨db.nextId + 1, r, "transfer_in", amt, ts, s⟩ : TxRow).username = a.username) := by
              intro hc
              have hra : r = a.username := hc
              exact har hra.symm
            rw [if_neg h1, if_neg h2, add_zero, add_zero]
            exact hbase
      · intro t htl
        rcases List.mem_append.mp htl with htl | htl
        · apply exists_user_map _ _ (fun a => username_upd_add r amt a)
          apply exists_user_map _ _ (fun a => username_upd_sub s amt a)
          exact he t htl
        · simp only [List.mem_cons, List.not_mem_nil, or_false] at htl
          rcases htl with htl | htl
          · subst htl
            refine ⟨_, List.mem_map_of_mem _ (List.mem_map_of_mem _ hsmem), ?_⟩
            show ((fun a => if a.username == r then { a with balance := a.balance + amt } else a)
              ((fun a => if a.username == s then { a with balance := a.balance - amt } else a)
                srow)).username = s
            rw [username_upd_add r amt _, username_upd_sub s amt srow, hsu]
          · subst htl
            refine ⟨_, List.mem_map_of_mem _ (List.mem_map_of_mem _ hrmem), ?_⟩
            show ((fun a => if a.username == r then { a with balance := a.balance + amt } else a)
              ((fun a => if a.username == s then { a with balance := a.balance - amt } else a)
                rrow)).username = r
            rw [username_upd_add r amt _, username_upd_sub s amt rrow, hru]

/-- A whole well-aimed run preserves the audit invariant. -/
theorem auditInv_run (ops : List Op) (db : DB) (h : AuditInv db)
    (hg : goodSeq db ops = true) : AuditInv (run db ops) := by
  induction ops generalizing db with
  | nil => exact h
  | cons op rest ih =>
    have hg2 : opOk db op = true ∧ goodSeq (applyOp db op) rest = true := by
      simpa [goodSeq] using hg
    exact ih (applyOp db op) (auditInv_applyOp db op h hg2.1) hg2.2

/-- The fresh database satisfies the audit invariant. -/
theorem auditInv_init : AuditInv initDB := by
  constructor <;> intro t ht <;> simp [initDB] at ht

/-- After a transfer's two `UPDATE`s, looking up the sender finds their row
with the balance debited. -/
theorem find?_transfer_sender (l : List Account) (s r : String) (amt : Amount) (srow : Account)
    (hfs : l.find? (fun x => x.username == s) = some srow) (hsr : s ≠ r) :
    ((l.map (fun a => if a.username == s then { a with balance := a.balance - amt } else a)).map
      (fun a => if a.username == r then { a with balance := a.balance + amt } else a)).find?
      (fun x => x.username == s) = some { srow with balance := srow.balance - amt } := by
  have hsu : srow.username = s := by simpa using List.find?_some hfs
  rw [find?_username_map _ (fun a => username_upd_add r amt a),
    find?_username_map _ (fun a => username_upd_sub s amt a), hfs]
  simp [hsu, hsr]

/-- After a transfer's two `UPDATE`s, looking up the receiver finds their row
with the balance credited. -/
theorem find?_transfer_receiver (l : List Account) (s r : String) (amt : Amount) (rrow : Account)
    (hfr : l.find? (fun x => x.username == r) = some rrow) (hsr : s ≠ r) :
    ((l.map (fun a => if a.username == s then { a with balance := a.balance - amt } else a)).map
      (fun a => if a.username == r then { a with balance := a.balance + amt } else a)).find?
      (fun x => x.username == r) = some { rrow with balance := rrow.balance + amt } := by
  have hru : rrow.username = r := by simpa using List.find?_some hfr
  have hrs : r ≠ s := Ne.symm hsr
  rw [find?_username_map _ (fun a => username_upd_add r amt a),
    find?_username_map _ (fun a => username_upd_sub s amt a), hfr]
  simp [hru, hrs]

/-- C1 counterexample: running `deposit("alice", 5)` before any signup commits
(the code checks nothing about existence), writes a `"Deposit"` row for
`"alice"`, and changes no balance; when `"alice"` then signs up, her account
holds 0 while the signed sum of her ledger rows is 5, so the claimed
invariant fails for this operation sequence. -/
theorem balance_ledger_mismatch_on_orphan_deposit :
    (findUser (run initDB opsOrphan) "alice").isSome = true ∧
    get_balance (run initDB opsOrphan) "alice" = 0 ∧
    signedSum "alice" (run initDB opsOrphan).log = 5 := by
  refine ⟨by decide, by decide, ?_⟩
  norm_num [run, applyOp, deposit, signup, initDB, opsOrphan, signedSum, signedAmount,
    List.filter]

/-- C1 (amended): for every account, after every sequence of signup, deposit,
withdraw and transfer calls in which each deposit targets an already existing
account, the account's balance equals its opening balance 0 plus the signed
sum of the ledger rows whose primary username is that account (`Deposit` and
`transfer_in` positive, `Withdraw` and `transfer_out` negative).  Without the
proviso on deposits the invariant fails, since `deposit` commits a log row
for nonexistent usernames while updating no balance. -/
theorem balance_eq_signed_ledger_sum (ops : List Op) (hg : goodSeq initDB ops = true) :
    ∀ a ∈ (run initDB ops).users, a.balance = 0 + signedSum a.username (run initDB ops).log := by
  intro a ha
  rw [zero_add]
  exact (auditInv_run ops initDB auditInv_init hg).1 a ha

/-- Witness for the C1 theorem at a concrete well-aimed sequence. -/
theorem balance_eq_signed_ledger_sum_w :
    (⟨"alice", "pw", 100⟩ : Account).balance =
      0 + signedSum "alice" (run initDB opsSigDep).log :=
  balance_eq_signed_ledger_sum opsSigDep (by decide) ⟨"alice", "pw", 100⟩
    (by simp [run, applyOp, signup, deposit, initDB, opsSigDep]; norm_num)

/-- C2: transfer is atomic.  Whenever it fails — non-positive amount, empty or
equal usernames, missing sender or receiver, or insufficient sender balance —
the state is returned unchanged (and on a storage error the code's rollback
of the single enclosing transaction likewise restores this same state);
whenever it succeeds, the sender's balance decreases by `amount`, the
receiver's increases by `amount`, and exactly one `transfer_out` row
(sender, counterparty = receiver) and one `transfer_in` row (receiver,
counterparty = sender) are appended, with the same amount. -/
theorem transfer_atomic (db : DB) (s r : String) (amt : Amount) (ts : String) :
    ((transfer db s r amt ts).1 = false → (transfer db s r amt ts).2 = db) ∧
    ((transfer db s r amt ts).1 = true →
      0 < amt ∧ s ≠ r ∧ (findUser db s).isSome = true ∧ (findUser db r).isSome = true ∧
      get_balance (transfer db s r amt ts).2 s = get_balance db s - amt ∧
      get_balance (transfer db s r amt ts).2 r = get_balance db r + amt ∧
      (transfer db s r amt ts).2.log = db.log ++
        [⟨db.nextId, s, "transfer_out", amt, ts, r⟩,
         ⟨db.nextId + 1, r, "transfer_in", amt, ts, s⟩]) := by
  rcases transfer_result db s r amt ts with heq | ⟨hamt, _, _, hsr, ⟨srow, hfs, _⟩, hrsome, heq⟩
  · constructor
    · intro _
      rw [heq]
    · intro htrue
      rw [heq] at htrue
      simp at htrue
  · constructor
    · intro hfalse
      rw [heq] at hfalse
      simp at hfalse
    · intro _
      rcases Option.isSome_iff_exists.mp hrsome with ⟨rrow, hfr⟩
      have hfs' : db.users.find? (fun x => x.username == s) = some srow := hfs
      have hfr' : db.users.find? (fun x => x.username == r) = some rrow := hfr
      refine ⟨hamt, hsr, by simp [hfs], hrsome, ?_, ?_, by rw [heq]⟩
      · have hfind : findUser (transfer db s r amt ts).2 s =
            some { srow with balance := srow.balance - amt } := by
          rw [heq]
          exact find?_transfer_sender db.users s r amt srow hfs' hsr
        have hL : get_balance (transfer db s r amt ts).2 s = srow.balance - amt := by
          unfold get_balance
          rw [hfind]
        have hsb : get_balance db s = srow.balance := by
          unfold get_balance
          rw [hfs]
        rw [hL, hsb]
      · have hfind : findUser (transfer db s r amt ts).2 r =
            some { rrow with balance := rrow.balance + amt } := by
          rw [heq]
          exact find?_transfer_receiver db.users s r amt rrow hfr' hsr
        have hL : get_balance (transfer db s r amt ts).2 r = rrow.balance + amt := by
          unfold get_balance
          rw [hfind]
        have hrb : get_balance db r = rrow.balance := by
          unfold get_balance
          rw [hfr]
        rw [hL, hrb]

/-- Witness for the C2 theorem: a successful 40 transfer from alice (100) to
bob (0), and a failing 500 transfer in the other direction that leaves the
state untouched. -/
theorem transfer_atomic_w :
    get_balance (transfer dbPair "alice" "bob" 40 "t0").2 "alice" =
      get_balance dbPair "alice" - 40 ∧
    get_balance (transfer dbPair "alice" "bob" 40 "t0").2 "bob" =
      get_balance dbPair "bob" + 40 ∧
    (transfer dbPair "bob" "alice" 500 "t1").2 = dbPair := by
  have h1 := (transfer_atomic dbPair "alice" "bob" 40 "t0").2 (by decide)
  have h2 := (transfer_atomic dbPair "bob" "alice" 500 "t1").1 (by decide)
  exact ⟨h1.2.2.2.2.1, h1.2.2.2.2.2.1, h2⟩

/-- C3: the claim (deposit fails with NotFound when the account is missing)
is what the spec requires, but the code violates it: on a fresh database,
`deposit("ghost", 10)` matches zero rows with its `UPDATE`, still inserts a
`"Deposit"` log row for `"ghost"`, commits, and returns `True`, leaving an
account-less ledger entry behind.  (The `InvalidAmount` half does hold: for
`amount <= 0` the code returns `False` before touching the database.) -/
theorem deposit_missing_user_commits :
    findUser initDB "ghost" = none ∧
    (deposit initDB "ghost" 10 "t0").1 = true ∧
    (deposit initDB "ghost" 10 "t0").2.users = [] ∧
    (deposit initDB "ghost" 10 "t0").2.log = [⟨1, "ghost", "Deposit", 10, "t0", ""⟩] ∧
    (deposit initDB "ghost" (-3) "t0") = (false, initDB) := by
  refine ⟨rfl, by decide, by decide, by decide, by norm_num [deposit, initDB]⟩

/-- C4: every committed balance is non-negative: starting from the fresh
database, no sequence of signup, deposit, withdraw and transfer calls drives
any account's balance below zero (withdraw and transfer refuse rather than
overdraw; deposits only add positive amounts; accounts open at 0). -/
theorem balances_nonneg (ops : List Op) :
    ∀ a ∈ (run initDB ops).users, 0 ≤ a.balance :=
  fun a ha => (stateOk_run ops initDB stateOk_init).2.1 a ha

/-- Witness for the C4 theorem after a signup, a deposit and a withdraw. -/
theorem balances_nonneg_w :
    (0 : Amount) ≤ (⟨"alice", "pw", 70⟩ : Account).balance :=
  balances_nonneg opsSigDepWd ⟨"alice", "pw", 70⟩
    (by simp [run, applyOp, signup, deposit, withdraw, initDB, opsSigDepWd, findUser,
      List.find?]; norm_num)

/-- C5: for an existing account with balance `b`, `withdraw` with `0 < amount
<= b` succeeds, leaves balance `b - amount`, and appends exactly one
`"Withdraw"` row for that amount; with `0 < amount` and `b < amount` it fails
(insufficient funds) and changes neither the accounts nor the log. -/
theorem withdraw_spec (db : DB) (u : String) (amt : Amount) (ts : String) (acct : Account)
    (hf : findUser db u = some acct) :
    (0 < amt → amt ≤ acct.balance →
      (withdraw db u amt ts).1 = true ∧
      get_balance (withdraw db u amt ts).2 u = acct.balance - amt ∧
      (withdraw db u amt ts).2.log = db.log ++ [⟨db.nextId, u, "Withdraw", amt, ts, ""⟩]) ∧
    (0 < amt → acct.balance < amt →
      (withdraw db u amt ts).1 = false ∧ (withdraw db u amt ts).2 = db) := by
  have hau : acct.username = u := by simpa using List.find?_some hf
  have hf' : db.users.find? (fun a => a.username == u) = some acct := hf
  constructor
  · intro hamt hble
    have hnle : ¬ amt ≤ 0 := not_le.mpr hamt
    have hnlt : ¬ acct.balance < amt := not_lt.mpr hble
    have heq : withdraw db u amt ts =
        (true,
          ⟨db.users.map (fun a => if a.username == u then { a with balance := a.balance - amt } else a),
           db.log ++ [⟨db.nextId, u, "Withdraw", amt, ts, ""⟩],
           db.nextId + 1⟩) := by
      simp [withdraw, hnle, hf, hnlt]
    have hfind : findUser (withdraw db u amt ts).2 u =
        some { acct with balance := acct.balance - amt } := by
      rw [heq]
      show (db.users.map (fun a => if a.username == u then { a with balance := a.balance - amt } else a)).find?
        (fun a => a.username == u) = _
      rw [find?_username_map _ (fun a => username_upd_sub u amt a), hf']
      simp [hau]
    refine ⟨by rw [heq], ?_, by rw [heq]⟩
    unfold get_balance
    rw [hfind]
  · intro hamt hlt
    have hnle : ¬ amt ≤ 0 := not_le.mpr hamt
    have heq : withdraw db u amt ts = (false, db) := by
      simp [withdraw, hnle, hf, hlt]
    exact ⟨by rw [heq], by rw [heq]⟩

/-- Witness for the C5 theorem: withdrawing 60 from alice (100) succeeds and
leaves 40; withdrawing 200 fails and leaves the state untouched. -/
theorem withdraw_spec_w :
    (withdraw dbPair "alice" 60 "t0").1 = true ∧
    get_balance (withdraw dbPair "alice" 60 "t0").2 "alice" = (100 : Amount) - 60 ∧
    (withdraw dbPair "alice" 200 "t1").1 = false ∧
    (withdraw dbPair "alice" 200 "t1").2 = dbPair := by
  have hf : findUser dbPair "alice" = some ⟨"alice", "pw", 100⟩ := rfl
  have h1 := (withdraw_spec dbPair "alice" 60 "t0" ⟨"alice", "pw", 100⟩ hf).1
    (by norm_num) (by norm_num)
  have h2 := (withdraw_spec dbPair "alice" 200 "t1" ⟨"alice", "pw", 100⟩ hf).2
    (by norm_num) (by norm_num)
  exact ⟨h1.1, h1.2.1, h2.1, h2.2⟩

/-- C6 counterexample: `get_balance` cannot fail; for a username with no
account it returns `0.0` (its docstring says exactly this), rather than
failing with `NotFound` as the claim states. -/
theorem get_balance_missing_user_returns_zero :
    findUser initDB "ghost" = none ∧ get_balance initDB "ghost" = 0 :=
  ⟨rfl, rfl⟩

/-- C6 (amended): `get_balance` is a pure, total read: it returns the current
balance when the account exists and `0.0` when it does not; it never fails
and never changes state (it takes the state and returns only an amount). -/
theorem get_balance_spec (db : DB) (u : String) :
    (findUser db u = none → get_balance db u = 0) ∧
    (∀ acct, findUser db u = some acct → get_balance db u = acct.balance) := by
  constructor
  · intro h
    unfold get_balance
    rw [h]
  · intro acct h
    unfold get_balance
    rw [h]

/-- Witness for the C6 theorem at a missing and at an existing account. -/
theorem get_balance_spec_w :
    get_balance dbPair "ghost" = 0 ∧ get_balance dbPair "alice" = (100 : Amount) :=
  ⟨(get_balance_spec dbPair "ghost").1 rfl,
   (get_balance_spec dbPair "alice").2 ⟨"alice", "pw", 100⟩ rfl⟩

/-- C7 counterexample: the schema of `transactions` (id, username, type,
amount, timestamp, other_party) carries no operation-id column, and the only
id-like field of the two rows of a successful transfer — their autoincrement
primary key — differs between them (here 1 and 2), so the two rows do not
carry a same logical operation id. -/
theorem transfer_rows_distinct_ids :
    (transfer dbPair "alice" "bob" 40 "t0").1 = true ∧
    (transfer dbPair "alice" "bob" 40 "t0").2.log =
      [⟨1, "alice", "transfer_out", 40, "t0", "bob"⟩,
       ⟨2, "bob", "transfer_in", 40, "t0", "alice"⟩] ∧
    (1 : Nat) ≠ 2 := by
  refine ⟨by decide, by decide, by decide⟩

/-- C7 (amended): every successful transfer appends exactly one
`transfer_out` row for the sender and one `transfer_in` row for the receiver,
with matching amount and mutual counterparty references; but the rows carry
distinct autoincrement ids (`nextId` and `nextId + 1`) and no shared
operation id, the schema having no such column. -/
theorem transfer_rows_paired (db : DB) (s r : String) (amt : Amount) (ts : String)
    (h : (transfer db s r amt ts).1 = true) :
    (transfer db s r amt ts).2.log = db.log ++
      [⟨db.nextId, s, "transfer_out", amt, ts, r⟩,
       ⟨db.nextId + 1, r, "transfer_in", amt, ts, s⟩] ∧
    db.nextId ≠ db.nextId + 1 := by
  rcases transfer_result db s r amt ts with heq | ⟨_, _, _, _, _, _, heq⟩
  · rw [heq] at h
    simp at h
  · exact ⟨by rw [heq], Nat.ne_of_lt (Nat.lt_succ_self _)⟩

/-- Witness for the C7 theorem at a concrete successful transfer. -/
theorem transfer_rows_paired_w :
    (transfer dbPair "alice" "bob" 40 "t0").2.log = dbPair.log ++
      [⟨dbPair.nextId, "alice", "transfer_out", 40, "t0", "bob"⟩,
       ⟨dbPair.nextId + 1, "bob", "transfer_in", 40, "t0", "alice"⟩] ∧
    dbPair.nextId ≠ dbPair.nextId + 1 :=
  transfer_rows_paired dbPair "alice" "bob" 40 "t0" (by decide)

/-- C8: `get_history` returns exactly the projections of the ledger rows
whose primary username is the given account, in the list order of the log,
which for every reachable state is ascending id order (insertion order); for
a username with no rows — a nonexistent user included — it returns the empty
list rather than an error. -/
theorem get_transactions_spec (ops : List Op) (u : String) :
    get_transactions (run initDB ops) u =
      ((run initDB ops).log.filter (fun t => t.username == u)).map
        (fun t => (t.type, t.amount, t.timestamp, t.other_party)) ∧
    List.Pairwise (fun t1 t2 => t1.id < t2.id)
      ((run initDB ops).log.filter (fun t => t.username == u)) ∧
    ((∀ t ∈ (run initDB ops).log, t.username ≠ u) → get_transactions (run initDB ops) u = []) := by
  refine ⟨rfl, ?_, ?_⟩
  · exact List.Pairwise.sublist (List.filter_sublist _) (stateOk_run ops initDB stateOk_init).2.2.1
  · intro h
    have hnil : (run initDB ops).log.filter (fun t => t.username == u) = [] := by
      apply List.filter_eq_nil_iff.mpr
      intro t ht
      simpa using h t ht
    show ((run initDB ops).log.filter (fun t => t.username == u)).map
      (fun t => (t.type, t.amount, t.timestamp, t.other_party)) = []
    rw [hnil]
    rfl

/-- Witness for the C8 theorem: bob has no rows after alice's signup and
deposit, so his history is empty. -/
theorem get_transactions_spec_w :
    get_transactions (run initDB opsSigDep) "bob" = [] :=
  (get_transactions_spec opsSigDep "bob").2.2 (by decide)

/-- Linking lemma for the concurrency model: the sequential `withdraw` is
exactly its check phase followed, on success, by its commit phase. -/
theorem withdraw_eq_check_apply (db : DB) (u : String) (amt : Amount) (ts : String) :
    withdraw db u amt ts =
      if withdrawCheck db u amt then (true, withdrawApply db u amt ts) else (false, db) := by
  unfold withdraw withdrawCheck withdrawApply
  by_cases h : amt ≤ 0
  · simp [h]
  · simp only [h, if_false]
    cases hf : findUser db u with
    | none => simp
    | some row =>
      by_cases hb : row.balance < amt
      · simp [hb]
      · simp [hb]

/-- C9: the claim (two concurrent withdrawals never both succeed beyond the
balance) is the spec's requirement, but the code violates it: the balance
check (`SELECT`, lines 142-144) and the debit (`UPDATE` + `INSERT` + commit,
lines 146-153) run in separate atomic units with no lock spanning them, so
the interleaving check-check-commit-commit is allowed; on an account holding
100, two withdrawals of 60 both pass their checks against 100 and both
commit, ending at balance -20 with two `"Withdraw"` rows — instead of the
claimed one success, one InsufficientFunds failure and final balance 40. -/
theorem raced_withdrawals_overdraw :
    (racedWithdrawals dbRace "alice" 60 60 "t1" "t2").1 = true ∧
    (racedWithdrawals dbRace "alice" 60 60 "t1" "t2").2.1 = true ∧
    get_balance (racedWithdrawals dbRace "alice" 60 60 "t1" "t2").2.2 "alice" = -20 ∧
    ¬ (0 : Amount) ≤ -20 := by
  refine ⟨by decide, by decide, ?_, by norm_num⟩
  simp [racedWithdrawals, withdrawCheck, withdrawApply, dbRace, get_balance, findUser,
    List.find?]; norm_num

/-- C10: the two rows of every successful transfer carry the identical
timestamp string — the code formats `datetime.now()` once, before both
inserts — and mutual counterparty references with equal amounts; apart from
amount and timestamp every field of the two rows differs (distinct ids,
usernames, types and counterparties), so the shared timestamp plus the
counterparty fields are the only pairing information. -/
theorem transfer_rows_share_timestamp (db : DB) (s r : String) (amt : Amount) (ts : String)
    (h : (transfer db s r amt ts).1 = true) :
    ∃ e1 e2 : TxRow,
      (transfer db s r amt ts).2.log = db.log ++ [e1, e2] ∧
      e1.timestamp = e2.timestamp ∧
      e1.amount = e2.amount ∧
      e1.username = s ∧ e2.username = r ∧
      e1.other_party = e2.username ∧ e2.other_party = e1.username ∧
      e1.id ≠ e2.id ∧ e1.username ≠ e2.username ∧ e1.type ≠ e2.type ∧
      e1.other_party ≠ e2.other_party := by
  rcases transfer_result db s r amt ts with heq | ⟨_, _, _, hsr, _, _, heq⟩
  · rw [heq] at h
    simp at h
  · have htype : ("transfer_out" : String) ≠ "transfer_in" := by decide
    refine ⟨⟨db.nextId, s, "transfer_out", amt, ts, r⟩,
      ⟨db.nextId + 1, r, "transfer_in", amt, ts, s⟩, by rw [heq], rfl, rfl, rfl, rfl, rfl, rfl,
      Nat.ne_of_lt (Nat.lt_succ_self _), hsr, htype, ?_⟩
    intro hc
    have hrs : r = s := hc
    exact hsr hrs.symm

/-- Witness for the C10 theorem at a concrete successful transfer. -/
theorem transfer_rows_share_timestamp_w :
    ∃ e1 e2 : TxRow,
      (transfer dbPair "alice" "bob" 40 "t0").2.log = dbPair.log ++ [e1, e2] ∧
      e1.timestamp = e2.timestamp ∧
      e1.amount = e2.amount ∧
      e1.username = "alice" ∧ e2.username = "bob" ∧
      e1.other_party = e2.username ∧ e2.other_party = e1.username ∧
      e1.id ≠ e2.id ∧ e1.username ≠ e2.username ∧ e1.type ≠ e2.type ∧
      e1.other_party ≠ e2.other_party :=
  transfer_rows_share_timestamp dbPair "alice" "bob" 40 "t0" (by decide)
